import Mathlib

/-!
Verification development for the EDINET XBRL extraction engine
(`app/edinet.py`).  The Python source is shallowly embedded: XML trees
are modelled as their document-order element lists, Python floats as
rationals, fallible operations as `Option`, and the external libraries
(zipfile, lxml, re) as the outcomes they hand to the code under
verification.  Leading underscores of the Python names are dropped
(`_is_previous_ratio` becomes `is_previous_ratio`, and so on).
-/

namespace Edinet

/-- Boolean substring test on character lists: `infixBool pat l` is true
when `pat` occurs contiguously inside `l`.  This models Python's
`pat in s` on strings. -/
def infixBool (pat : List Char) : List Char → Bool
  | [] => pat.isEmpty
  | c :: t => pat.isPrefixOf (c :: t) || infixBool pat t

/-- Substring containment on strings, modelling Python `pat in s`. -/
def containsSub (s pat : String) : Bool := infixBool pat.toList s.toList

theorem infixBool_iff (pat : List Char) : ∀ l, infixBool pat l = true ↔ pat <:+: l := by
  intro l
  induction l with
  | nil =>
    simp only [infixBool, List.isEmpty_iff, List.infix_nil]
  | cons c t ih =>
    simp only [infixBool, Bool.or_eq_true, List.isPrefixOf_iff_prefix, ih,
      List.infix_cons_iff]

/-- Bridge between the executable substring test and `List.IsInfix`. -/
theorem containsSub_iff (s pat : String) :
    containsSub s pat = true ↔ pat.toList <:+: s.toList :=
  infixBool_iff pat.toList s.toList

theorem containsSub_trans {s p q : String} (h : containsSub s p = true)
    (hq : q.toList <:+: p.toList) : containsSub s q = true := by
  rw [containsSub_iff] at h ⊢
  exact hq.trans h

/-- Model of Python's `str.strip()` (and lxml text stripping): drop
leading and trailing whitespace.  Defined by structural recursion on the
character list (Lean's `String.trim` is extensionally the same but is
not kernel-reducible). -/
def pyStrip (s : String) : String :=
  String.mk (((s.toList.dropWhile Char.isWhitespace).reverse.dropWhile
    Char.isWhitespace).reverse)

/-- Model of Python's `str.endswith` by structural recursion (Lean's
`String.endsWith` is extensionally the same but is not
kernel-reducible). -/
def endsWithStr (s suffix : String) : Bool :=
  suffix.toList.isSuffixOf s.toList

theorem ne_empty_of_containsSub {s p : String} (h : containsSub s p = true)
    (hp : p ≠ "") : s ≠ "" := by
  rw [containsSub_iff] at h
  intro hs
  subst hs
  simp only [String.toList, String.data] at h
  rw [List.infix_nil] at h
  apply hp
  cases p with
  | mk data => simp only [String.toList, String.data] at h; simp [h]

/-- Numeric value of a list of decimal digit characters. -/
def natOfDigits (cs : List Char) : ℕ :=
  cs.foldl (fun a c => a * 10 + (c.toNat - 48)) 0

/-- Model of Python's builtin `float(s)` restricted to the decimal forms
the filings use: optional sign, an integer part and an optional
fractional part (at least one digit overall).  Exponents, `inf`/`nan`
and digit underscores lie outside the subset this code ever feeds it. -/
def parseFloat (s : String) : Option ℚ :=
  let cs := s.toList
  let signed : Bool × List Char :=
    match cs with
    | '-' :: r => (true, r)
    | '+' :: r => (false, r)
    | r => (false, r)
  let sgn : ℚ := if signed.1 then -1 else 1
  let ip := signed.2.takeWhile fun c => c.isDigit
  let rest := signed.2.dropWhile fun c => c.isDigit
  match rest with
  | [] => if ip.isEmpty then none else some (sgn * natOfDigits ip)
  | '.' :: fp =>
      if fp.all (fun c => c.isDigit) ∧ ¬(ip.isEmpty ∧ fp.isEmpty) then
        some (sgn * ((natOfDigits ip : ℚ) + (natOfDigits fp : ℚ) / 10 ^ fp.length))
      else none
  | _ => none

/-- Model of Python's builtin `int(s)` on attribute strings: optional
sign followed by decimal digits. -/
def parseIntStr (s : String) : Option ℤ :=
  let cs := s.toList
  let signed : Bool × List Char :=
    match cs with
    | '-' :: r => (true, r)
    | '+' :: r => (false, r)
    | r => (false, r)
  if ¬signed.2.isEmpty ∧ signed.2.all (fun c => c.isDigit) then
    some ((if signed.1 then -1 else 1) * (natOfDigits signed.2 : ℤ))
  else none

/-- Truncation toward zero, modelling Python `int(float_value)`. -/
def truncQ (x : ℚ) : ℤ := if 0 ≤ x then ⌊x⌋ else ⌈x⌉

/-- Rounding to four decimal places, modelling Python `round(x, 4)`
(ties, which arise only from binary-float artifacts, are rounded
half-up here rather than half-even). -/
def roundTo4 (x : ℚ) : ℚ := ((round (x * 10000) : ℤ) : ℚ) / 10000

/-- Source `_normalize_ratio`: values in the open-closed interval
(0, 1] are read as decimal fractions and rescaled to percent. -/
def normalize_ratio (v : ℚ) : ℚ :=
  if 0 < v ∧ v ≤ 1 then roundTo4 (v * 100) else v

/-- Character class stripped by the source's cleansing regex
`[,、\s　株%％]` (Python `\s` additionally matching unicode whitespace
not used in this development). -/
def strippedChar (c : Char) : Bool :=
  c = ',' || c = '、' || c = '　' || c = '株' || c = '%' || c = '％' || c.isWhitespace

/-- Value cleansing `re.sub(r"[,、\s　株%％]", "", text)`. -/
def cleanse (s : String) : String :=
  String.mk (s.toList.filter fun c => ¬ strippedChar c)

/-- Tail after the last colon, modelling `name_attr.split(":")[-1]`
(the whole string when no colon occurs). -/
def lastColon (s : String) : String :=
  String.mk ((s.toList.reverse.takeWhile fun c => c ≠ ':').reverse)

/-- Model of `re.sub(r'<[^>]+>', '', s)`: left-to-right removal of
maximal `<`…`>` runs with a non-empty, `>`-free body.  The fuel
argument (strictly larger than the list length at every call, each step
consuming at least one character) keeps the recursion structural so the
kernel can evaluate it; the fuel-exhaustion branch is unreachable. -/
def stripTagsAux : ℕ → List Char → List Char
  | 0, _ => []
  | _ + 1, [] => []
  | fuel + 1, c :: rest =>
    if c = '<' then
      let run := rest.takeWhile fun d => d ≠ '>'
      if run.isEmpty then c :: stripTagsAux fuel rest
      else if (rest.drop run.length).head? = some '>' then
        stripTagsAux fuel (rest.drop (run.length + 1))
      else c :: stripTagsAux fuel rest
    else c :: stripTagsAux fuel rest

/-- Tag-stripped character list with adequate fuel. -/
def stripTagsList (l : List Char) : List Char := stripTagsAux (l.length + 1) l

/-- String form of `stripTagsList`. -/
def stripTags (s : String) : String := String.mk (stripTagsList s.toList)

/-- Source `_is_previous_ratio`: the single shared current-vs-previous
classification predicate. -/
def is_previous_ratio (local_name context_ref : String) : Bool :=
  containsSub local_name "PerLastReport"
  || containsSub local_name "Previous"
  || containsSub context_ref "Prior"
  || containsSub context_ref "Previous"

/-- Power-of-ten `scale` attribute application in `_parse_ix_number`
(an unparsable non-empty scale is logged and ignored). -/
def applyScale (scale : String) (v : ℚ) : ℚ :=
  if scale = "" then v
  else
    match parseIntStr scale with
    | some z => v * (10 : ℚ) ^ z
    | none => v

/-- Negation under an inline `sign` attribute. -/
def ixSign (sign : String) (v : ℚ) : ℚ := if sign = "-" then -v else v

/-- Source `_parse_ix_number` with the `scale`/`sign` attributes passed
explicitly (the Python reads them off the element). -/
def parse_ix_number (scale sign text : String) : Option ℚ :=
  let cleaned := cleanse text
  if cleaned = "" ∨ cleaned = "-" ∨ cleaned = "―" then none
  else
    match parseFloat cleaned with
    | none => none
    | some v => some (ixSign sign (applyScale scale v))

/-- The ratio-normalization step shared by both inline extraction paths:
normalization is skipped when the source text itself carries a percent
marker. -/
def applyRatioNormalize (srcText : String) (v : ℚ) : ℚ :=
  if containsSub srcText "%" = false ∧ containsSub srcText "％" = false then
    normalize_ratio v
  else v

/-- One XML element of a parsed document.  A document is its
document-order (preorder) element list, which is the order both
`tree.iter()` and the `//*[...]` XPath queries of the source produce.
Attribute fields default to `""` exactly as `elem.get(attr, "")` does;
`text` is `elem.text` (absent for element-less nodes), `itext` is the
concatenation `"".join(elem.itertext())`, and `nsmap` is the element's
namespace-prefix map as an association list. -/
structure XElem where
  localName : String := ""
  nsUri : String := ""
  text : Option String := none
  contextRef : String := ""
  nameAttr : String := ""
  scale : String := ""
  sign : String := ""
  itext : String := ""
  nsmap : List (String × String) := []
deriving DecidableEq, Repr

/-- One joint holder; the source serializes these as JSON objects, which
the embedding keeps as structured values. -/
structure JointHolder where
  name : String
  ratio : Option ℚ
deriving DecidableEq, Repr

/-- The holding-data record built by `_empty_holding_result` and filled
by the extractors; `None` fields are `none`.  `joint_holders` keeps the
decoded list rather than its JSON string serialization. -/
structure HoldingResult where
  holding_ratio : Option ℚ := none
  previous_holding_ratio : Option ℚ := none
  holder_name : Option String := none
  target_company_name : Option String := none
  target_sec_code : Option String := none
  shares_held : Option ℤ := none
  purpose_of_holding : Option String := none
  joint_holders : Option (List JointHolder) := none
  fund_source : Option String := none
deriving DecidableEq, Repr

/-- Source `_empty_holding_result`. -/
def emptyHoldingResult : HoldingResult := {}

/-- Python truthiness test `not result[key]` on an optional string
field: true for both `None` and the empty string. -/
def strFalsy (o : Option String) : Bool := o.getD "" = ""

/-- Field-by-field gap filling: every field of `a` that is `None` is
taken from `b`.  This is the loop
`if merged[key] is None and partial.get(key) is not None` of
`parse_xbrl_for_holding_data` and the identical loop of
`_extract_from_inline_xbrl`. -/
def fillGaps (a b : HoldingResult) : HoldingResult where
  holding_ratio := a.holding_ratio.or b.holding_ratio
  previous_holding_ratio := a.previous_holding_ratio.or b.previous_holding_ratio
  holder_name := a.holder_name.or b.holder_name
  target_company_name := a.target_company_name.or b.target_company_name
  target_sec_code := a.target_sec_code.or b.target_sec_code
  shares_held := a.shares_held.or b.shares_held
  purpose_of_holding := a.purpose_of_holding.or b.purpose_of_holding
  joint_holders := a.joint_holders.or b.joint_holders
  fund_source := a.fund_source.or b.fund_source

/-- Python `any(v is not None for v in merged.values())`. -/
def anyField (r : HoldingResult) : Bool :=
  r.holding_ratio.isSome || r.previous_holding_ratio.isSome
  || r.holder_name.isSome || r.target_company_name.isSome
  || r.target_sec_code.isSome || r.shares_held.isSome
  || r.purpose_of_holding.isSome || r.joint_holders.isSome
  || r.fund_source.isSome

/-! Inline-XBRL element-name matchers (`_name_contains_any` and the
`_matches_*_pattern` family with their pattern constants). -/

/-- Source `_name_contains_any`. -/
def name_contains_any (name : String) (patterns : List String)
    (exclude : List String) : Bool :=
  if ¬exclude.isEmpty ∧ exclude.any (fun p => containsSub name p) then false
  else patterns.any fun p => containsSub name p

def RATIO_PATTERNS : List String :=
  ["HoldingRatio", "ShareholdingRatio", "RatioOfShareholdingToTotalIssuedShares",
   "RatioOfShareCertificatesEtc"]

def RATIO_EXCLUDE : List String :=
  ["Abstract", "EachLargeShareholder", "JointHolder"]

def SHARES_PATTERNS : List String :=
  ["TotalNumberOfShareCertificatesEtcHeld", "TotalNumberOfSharesHeld",
   "NumberOfShareCertificatesEtc", "NumberOfStocksEtc"]

def HOLDER_PATTERNS : List String :=
  ["NameOfLargeShareholdingReporter", "NameOfFiler", "ReporterName",
   "LargeShareholderName"]

def TARGET_PATTERNS : List String :=
  ["IssuerNameLargeShareholding", "IssuerName", "NameOfIssuer", "TargetCompanyName"]

def SEC_CODE_PATTERNS : List String :=
  ["SecurityCodeOfIssuer", "IssuerSecuritiesCode", "SecurityCode"]

def PURPOSE_PATTERNS : List String := ["PurposeOfHolding"]

def FUND_SOURCE_PATTERNS : List String :=
  ["DescriptionOfFundsForAcquisition", "FundsForAcquisition", "SourceOfFunds",
   "BreakdownOfAcquisitionFunds", "AcquisitionFund"]

def matches_ratio_pattern (name : String) : Bool :=
  name_contains_any name RATIO_PATTERNS RATIO_EXCLUDE

def matches_shares_pattern (name : String) : Bool :=
  name_contains_any name SHARES_PATTERNS ["Abstract"]

def matches_holder_pattern (name : String) (full_qname : String) : Bool :=
  if name_contains_any name HOLDER_PATTERNS [] then true
  else name = "Name" && (containsSub full_qname "jplvh" || containsSub full_qname "lvh")

def matches_target_pattern (name : String) : Bool :=
  name_contains_any name TARGET_PATTERNS []

def matches_sec_code_pattern (name : String) : Bool :=
  name_contains_any name SEC_CODE_PATTERNS []

def matches_purpose_pattern (name : String) : Bool :=
  name_contains_any name PURPOSE_PATTERNS []

def matches_fund_source_pattern (name : String) : Bool :=
  name_contains_any name FUND_SOURCE_PATTERNS []

def matches_joint_holder_name_pattern (name : String) : Bool :=
  containsSub name "JointHolder" && containsSub name "Name"
  && !containsSub name "Abstract"

def matches_joint_holder_ratio_pattern (name : String) : Bool :=
  containsSub name "JointHolder"
  && (containsSub name "Ratio" || containsSub name "HoldingRatio")
  && !containsSub name "Abstract"

/-! Traditional-XBRL fact extractor (`_extract_from_xbrl` and its
helpers `_find_first_text`, `_find_first_int`,
`_extract_joint_holders_xbrl`). -/

/-- Source `_find_first_text`: first non-empty stripped text among
elements whose local name contains a pattern, scanned pattern-first. -/
def find_first_text (tree : List XElem) (patterns : List String) : Option String :=
  patterns.findSome? fun p =>
    (tree.filter fun e => containsSub e.localName p).findSome? fun e =>
      match e.text with
      | some t => if pyStrip t ≠ "" then some (pyStrip t) else none
      | none => none

/-- Source `_find_first_int`: first integer among matching elements
whose contextRef is not historical; an unparsable or historical element
is skipped, never aborting the scan. -/
def find_first_int (tree : List XElem) (patterns : List String) : Option ℤ :=
  patterns.findSome? fun p =>
    (tree.filter fun e => containsSub e.localName p).findSome? fun e =>
      match e.text with
      | none => none
      | some t =>
        match parseFloat (pyStrip t) with
        | none => none
        | some v =>
          if containsSub e.contextRef "Prior" = false
              ∧ containsSub e.contextRef "Previous" = false then
            some (truncQ v)
          else none

/-- The five specific ratio element-name patterns of
`_extract_from_xbrl`. -/
def ratio_patterns : List String :=
  ["HoldingRatioOfShareCertificatesEtc",
   "TotalShareholdingRatioOfShareCertificatesEtc",
   "TotalShareholdingRatio",
   "RatioOfShareholdingToTotalIssuedShares",
   "RatioOfShareCertificatesEtcAtTimeOfPreviousReport"]

/-- One candidate ratio element applied to the
(`holding_ratio`, `previous_holding_ratio`) accumulator: skip when the
local name contains an exclusion, skip on a parse failure, otherwise
normalize, classify via `is_previous_ratio` and fill the corresponding
slot only when it is still empty. -/
def ratioElemStep (excl : List String) (st : Option ℚ × Option ℚ) (e : XElem) :
    Option ℚ × Option ℚ :=
  if excl.any (fun p => containsSub e.localName p) then st
  else
    match e.text with
    | none => st
    | some t =>
      match parseFloat (pyStrip t) with
      | none => st
      | some v =>
        let val := normalize_ratio v
        if is_previous_ratio e.localName e.contextRef then
          (st.1, st.2.or (some val))
        else
          (st.1.or (some val), st.2)

/-- The pattern loop of `_extract_from_xbrl`: scan each pattern's
matches, breaking out early once a pattern had matches and both ratio
slots are filled. -/
def ratioPatternLoop (tree : List XElem) :
    List String → Option ℚ × Option ℚ → Option ℚ × Option ℚ
  | [], st => st
  | p :: ps, st =>
    let matched := tree.filter fun e => containsSub e.localName p
    let st2 := matched.foldl (ratioElemStep ["Abstract", "EachLargeShareholder"]) st
    if ¬matched.isEmpty ∧ st2.1.isSome ∧ st2.2.isSome then st2
    else ratioPatternLoop tree ps st2

/-- The broader last-resort `HoldingRatio` scan, run only when no
current ratio was found; it additionally excludes joint-holder
elements. -/
def fallbackRatioScan (tree : List XElem) (st : Option ℚ × Option ℚ) :
    Option ℚ × Option ℚ :=
  (tree.filter fun e => containsSub e.localName "HoldingRatio").foldl
    (ratioElemStep ["Abstract", "EachLargeShareholder", "JointHolder"]) st

/-- Joint-holder name collected by strategy 1 of
`_extract_joint_holders_xbrl` (contains both `JointHolder` and `Name`,
non-empty text, not abstract). -/
def jhName? (e : XElem) : Option String :=
  if containsSub e.localName "JointHolder" = true
      ∧ containsSub e.localName "Name" = true then
    match e.text with
    | some t =>
      if pyStrip t ≠ "" ∧ containsSub e.localName "Abstract" = false then some (pyStrip t)
      else none
    | none => none
  else none

/-- Joint-holder ratio parsed by strategy 2 of
`_extract_joint_holders_xbrl`. -/
def jhRatio? (e : XElem) : Option ℚ :=
  if (containsSub e.localName "JointHolder"
      && (containsSub e.localName "Ratio" || containsSub e.localName "HoldingRatio"))
      = true ∧ containsSub e.localName "Abstract" = false then
    match e.text with
    | none => none
    | some t => (parseFloat (pyStrip t)).map normalize_ratio
  else none

/-- Strategy-3 unindexed joint-holder name (exact local-name match with
non-empty text). -/
def jhExactName? (p : String) (e : XElem) : Option String :=
  if e.localName = p then
    match e.text with
    | some t => if pyStrip t ≠ "" then some (pyStrip t) else none
    | none => none
  else none

def jhNamesXbrl (tree : List XElem) : List String := tree.filterMap jhName?

def jhRatiosXbrl (tree : List XElem) : List ℚ := tree.filterMap jhRatio?

/-- Positional pairing of joint-holder names with ratios: holder `i`
receives the `i`-th parsed ratio when one exists.  This is the
`ratio_idx` assignment loop of the source (the counter advances once
per successfully parsed ratio, assigning while it is in range). -/
def pairJoint : List String → List ℚ → List JointHolder
  | [], _ => []
  | n :: ns, [] => ⟨n, none⟩ :: pairJoint ns []
  | n :: ns, r :: rs => ⟨n, some r⟩ :: pairJoint ns rs

/-- Source `_extract_joint_holders_xbrl` (the JSON serialization of the
non-empty holder list is kept as the list itself). -/
def extract_joint_holders_xbrl (tree : List XElem) : Option (List JointHolder) :=
  let holders := pairJoint (jhNamesXbrl tree) (jhRatiosXbrl tree)
  let holders :=
    if holders.isEmpty then
      ((tree.filterMap (jhExactName? "NameOfJointHolder"))
        ++ (tree.filterMap (jhExactName? "JointHolderName"))).map
        fun n => JointHolder.mk n none
    else holders
  if holders.isEmpty then none else some holders

/-- Holder-name lookup of `_extract_from_xbrl`, including the
`jplvh`-namespace exact-`Name` fallback. -/
def holderNameXbrl (tree : List XElem) : Option String :=
  match find_first_text tree HOLDER_PATTERNS with
  | some h => some h
  | none =>
    (tree.filter fun e => e.localName = "Name").findSome? fun e =>
      if containsSub e.nsUri "jplvh" || containsSub e.nsUri "lvh" then
        match e.text with
        | some t => if pyStrip t ≠ "" then some (pyStrip t) else none
        | none => none
      else none

/-- Source `_extract_from_xbrl` applied to an already-parsed tree. -/
def extract_from_xbrl_tree (tree : List XElem) : HoldingResult :=
  let st := ratioPatternLoop tree ratio_patterns (none, none)
  let st := if st.1.isNone then fallbackRatioScan tree st else st
  { holding_ratio := st.1
    previous_holding_ratio := st.2
    holder_name := holderNameXbrl tree
    target_company_name := find_first_text tree TARGET_PATTERNS
    target_sec_code := find_first_text tree SEC_CODE_PATTERNS
    shares_held :=
      find_first_int tree
        ["TotalNumberOfShareCertificatesEtcHeld", "TotalNumberOfSharesHeld",
         "NumberOfShareCertificatesEtc", "NumberOfStocksEtcHeld"]
    purpose_of_holding :=
      find_first_text tree ["PurposeOfHolding", "PurposeOfHoldingOfShareCertificatesEtc"]
    joint_holders := extract_joint_holders_xbrl tree
    fund_source := find_first_text tree FUND_SOURCE_PATTERNS }

/-! Inline-XBRL XML extractor (`_extract_inline_via_xml`). -/

/-- The well-known default inline-XBRL namespace URI (source `IX_NS`). -/
def IX_NS : String := "http://www.xbrl.org/2013/inlineXBRL"

/-- Lookup in a namespace map, modelling `nsmap.get(prefix)` /
`prefix in nsmap`. -/
def dictGet (d : List (String × String)) (k : String) : Option String :=
  (d.find? fun kv => kv.1 = k).map fun kv => kv.2

/-- Python `dict.update` modelled by prepending the update entries: the
overriding behaviour is observationally identical under `dictGet`, the
only access the source performs. -/
def dictUpdate (d upd : List (String × String)) : List (String × String) :=
  upd ++ d

/-- The namespace-discovery walk of `_extract_inline_via_xml`:
accumulate each element's namespace declarations and stop as soon as
the `ix` prefix is known. -/
def nsmapScan : List XElem → List (String × String) → List (String × String)
  | [], acc => acc
  | e :: rest, acc =>
    let acc2 := dictUpdate acc e.nsmap
    if (dictGet acc2 "ix").isSome then acc2 else nsmapScan rest acc2

/-- The inline-XBRL namespace URI used for element matching: the
discovered `ix` binding, defaulting to `IX_NS`. -/
def discover_ix_uri (tree : List XElem) : String :=
  (dictGet (nsmapScan tree []) "ix").getD IX_NS

/-- Clark notation `{uri}local` used by lxml element tags. -/
def clarkTag (uri local_ : String) : String :=
  "\x7b" ++ uri ++ "\x7d" ++ local_

/-- The tag string of an element as lxml reports it. -/
def tagOf (e : XElem) : String :=
  if e.nsUri = "" then e.localName else clarkTag e.nsUri e.localName

/-- Traversal state of `_extract_inline_via_xml`: the record being
filled plus the parallel joint-holder name/ratio accumulators. -/
structure InlineState where
  res : HoldingResult := {}
  jhNames : List String := []
  jhRatios : List ℚ := []
deriving DecidableEq, Repr

/-- One element of the `_extract_inline_via_xml` traversal. -/
def inlineStep (ixUri : String) (st : InlineState) (e : XElem) : InlineState :=
  let tag := tagOf e
  let isNF := tag = clarkTag ixUri "nonFraction"
  let isNN := tag = clarkTag ixUri "nonNumeric"
  if ¬isNF ∧ ¬isNN then st
  else
    let nameAttr := e.nameAttr
    let ctx := e.contextRef
    let text := pyStrip e.itext
    if nameAttr = "" ∨ text = "" then st
    else
      let localName := lastColon nameAttr
      if isNF ∧ matches_ratio_pattern localName then
        match parse_ix_number e.scale e.sign text with
        | none => st
        | some v =>
          let v := applyRatioNormalize text v
          if is_previous_ratio localName ctx then
            { st with res := { st.res with
                previous_holding_ratio := st.res.previous_holding_ratio.or (some v) } }
          else
            { st with res := { st.res with
                holding_ratio := st.res.holding_ratio.or (some v) } }
      else if isNF ∧ matches_shares_pattern localName then
        match parse_ix_number e.scale e.sign text with
        | none => st
        | some v =>
          if containsSub ctx "Prior" = false ∧ containsSub ctx "Previous" = false then
            { st with res := { st.res with
                shares_held := st.res.shares_held.or (some (truncQ v)) } }
          else st
      else if isNN then
        if matches_holder_pattern localName nameAttr then
          if strFalsy st.res.holder_name then
            { st with res := { st.res with holder_name := some text } }
          else st
        else if matches_target_pattern localName then
          if strFalsy st.res.target_company_name then
            { st with res := { st.res with target_company_name := some text } }
          else st
        else if matches_sec_code_pattern localName then
          if strFalsy st.res.target_sec_code then
            { st with res := { st.res with target_sec_code := some text } }
          else st
        else if matches_purpose_pattern localName then
          if strFalsy st.res.purpose_of_holding then
            { st with res := { st.res with purpose_of_holding := some text } }
          else st
        else if matches_fund_source_pattern localName then
          if strFalsy st.res.fund_source then
            { st with res := { st.res with fund_source := some text } }
          else st
        else if matches_joint_holder_name_pattern localName then
          { st with jhNames := st.jhNames ++ [text] }
        else st
      else if isNF ∧ matches_joint_holder_ratio_pattern localName then
        match parse_ix_number e.scale e.sign text with
        | none => st
        | some v =>
          let v := applyRatioNormalize text v
          { st with jhRatios := st.jhRatios ++ [v] }
      else st

/-- Source `_extract_inline_via_xml` on a parsed tree. -/
def extract_inline_via_xml (tree : List XElem) : HoldingResult :=
  let ixUri := discover_ix_uri tree
  let st := tree.foldl (inlineStep ixUri) {}
  if st.jhNames.isEmpty then st.res
  else { st.res with joint_holders := some (pairJoint st.jhNames st.jhRatios) }

/-! Inline-XBRL regex extractor (`_extract_inline_via_regex` and
`_apply_nonfraction_regex`).  The regex engine scanning the decoded
byte text is external; its match lists are taken as the input: `nf1`
holds the (name, contextRef, body) captures of the name-first
`nonFraction` pattern, `nf2` the (contextRef, name, body) captures of
the contextRef-first pattern, and `nn` the (name, body) captures of the
`nonNumeric` pattern, each in match order. -/

structure RegexView where
  nf1 : List (String × String × String) := []
  nf2 : List (String × String × String) := []
  nn : List (String × String) := []
deriving DecidableEq, Repr

/-- Source `_apply_nonfraction_regex`. -/
def apply_nonfraction_regex (result : HoldingResult)
    (nameAttr ctx valText : String) : HoldingResult :=
  let localName := lastColon nameAttr
  let cleanVal := stripTags valText
  let cleaned := cleanse cleanVal
  if cleaned = "" ∨ cleaned = "-" ∨ cleaned = "―" then result
  else
    match parseFloat cleaned with
    | none => result
    | some v =>
      if matches_ratio_pattern localName then
        let v := applyRatioNormalize cleanVal v
        if is_previous_ratio localName ctx then
          { result with
            previous_holding_ratio := result.previous_holding_ratio.or (some v) }
        else
          { result with holding_ratio := result.holding_ratio.or (some v) }
      else if matches_shares_pattern localName then
        if containsSub ctx "Prior" = false ∧ containsSub ctx "Previous" = false then
          { result with shares_held := result.shares_held.or (some (truncQ v)) }
        else result
      else result

/-- One `nonNumeric` regex match applied to the result. -/
def nnRegexStep (result : HoldingResult) (m : String × String) : HoldingResult :=
  let cleanVal := pyStrip (stripTags m.2)
  if cleanVal = "" then result
  else
    let localName := lastColon m.1
    if matches_holder_pattern localName m.1 then
      if strFalsy result.holder_name then { result with holder_name := some cleanVal }
      else result
    else if matches_target_pattern localName then
      if strFalsy result.target_company_name then
        { result with target_company_name := some cleanVal }
      else result
    else if matches_sec_code_pattern localName then
      if strFalsy result.target_sec_code then
        { result with target_sec_code := some cleanVal }
      else result
    else if matches_purpose_pattern localName then
      if strFalsy result.purpose_of_holding then
        { result with purpose_of_holding := some cleanVal }
      else result
    else if matches_fund_source_pattern localName then
      if strFalsy result.fund_source then { result with fund_source := some cleanVal }
      else result
    else if matches_joint_holder_name_pattern localName then
      let existing := result.joint_holders.getD []
      { result with joint_holders := some (existing ++ [JointHolder.mk cleanVal none]) }
    else result

/-- Source `_extract_inline_via_regex`. -/
def extract_inline_via_regex (rv : RegexView) : HoldingResult :=
  let r := rv.nf1.foldl
    (fun res m => apply_nonfraction_regex res m.1 m.2.1 m.2.2) emptyHoldingResult
  let r := rv.nf2.foldl
    (fun res m => apply_nonfraction_regex res m.2.1 m.1 m.2.2) r
  rv.nn.foldl nnRegexStep r

/-! File contents, candidate selection and the orchestrator. -/

/-- The raw bytes of one archive member as the extraction code observes
them: the outcome of `etree.fromstring` (`none` on `XMLSyntaxError`)
and the regex view of the decoded text. -/
structure FileBytes where
  xml : Option (List XElem) := none
  rv : RegexView := {}
deriving DecidableEq, Repr

/-- One archive member. -/
structure ZipMember where
  path : String
  content : FileBytes := {}
deriving DecidableEq, Repr

/-- The outcome of `zipfile.ZipFile(io.BytesIO(zip_content))`: a
zero-byte input, a non-ZIP input or a corrupt archive raises
`BadZipFile` (`bad`); otherwise the member list is available. -/
inductive ZipOutcome
  | bad
  | ok (files : List ZipMember)
deriving DecidableEq, Repr

/-- Member lookup `zf.read(name)`. -/
def zfRead (files : List ZipMember) (name : String) : FileBytes :=
  ((files.find? fun m => m.path = name).map fun m => m.content).getD {}

/-- Source `_discover_xbrl_files`. -/
def discover_xbrl_files (all_files : List String) : List String × List String :=
  let xbrl_pub := all_files.filter fun f =>
    endsWithStr f ".xbrl" && containsSub f "PublicDoc"
  let xbrl_any := all_files.filter fun f =>
    endsWithStr f ".xbrl" && !containsSub f "AuditDoc" && !containsSub f "__MACOSX"
  let xbrl_files := if xbrl_pub.isEmpty then xbrl_any else xbrl_pub
  let htm_pub := all_files.filter fun f =>
    containsSub f "PublicDoc" && (endsWithStr f ".htm" || endsWithStr f ".xhtml")
  let htm_any := all_files.filter fun f =>
    (endsWithStr f ".htm" || endsWithStr f ".xhtml")
    && !containsSub f "AuditDoc" && !containsSub f "__MACOSX"
  let htm_files := if htm_pub.isEmpty then htm_any else htm_pub
  (xbrl_files, htm_files)

/-- Source `_extract_from_xbrl` on raw bytes: an unparsable document
yields the empty record. -/
def extract_from_xbrl (fb : FileBytes) : HoldingResult :=
  match fb.xml with
  | none => emptyHoldingResult
  | some tree => extract_from_xbrl_tree tree

/-- Source `_extract_from_inline_xbrl`: XML strategy first, returning
immediately on a current ratio, otherwise the regex strategy fills the
gaps (on a parse failure the XML partial is the empty record). -/
def extract_from_inline_xbrl (fb : FileBytes) : HoldingResult :=
  match fb.xml with
  | some tree =>
    let r := extract_inline_via_xml tree
    if r.holding_ratio.isSome then r
    else fillGaps r (extract_inline_via_regex fb.rv)
  | none => fillGaps emptyHoldingResult (extract_inline_via_regex fb.rv)

/-- The traditional-XBRL partial of the orchestrator: the extraction of
the first `.xbrl` candidate, or the empty record when there is none. -/
def tradBase (files : List ZipMember) : HoldingResult :=
  match (discover_xbrl_files (files.map fun m => m.path)).1 with
  | [] => emptyHoldingResult
  | x :: _ => extract_from_xbrl (zfRead files x)

/-- The inline-candidate loop of `parse_xbrl_for_holding_data`: each
inline candidate is extracted once, returning immediately on the first
current ratio; otherwise the partials accumulate and are merged
field-by-field onto the traditional partial, the merge being returned
when it has any non-empty field. -/
def inlineLoop (files : List ZipMember) (base : HoldingResult) :
    List String → List HoldingResult → HoldingResult
  | [], acc =>
    let merged := acc.foldl fillGaps base
    if anyField merged then merged else base
  | h :: rest, acc =>
    let r := extract_from_inline_xbrl (zfRead files h)
    if r.holding_ratio.isSome then r
    else inlineLoop files base rest (acc ++ [r])

/-- Source `parse_xbrl_for_holding_data`, the archive-level entry
point.  Every fallible step of the Python body is caught there, so the
embedding is a total function; the `bad` outcome covers `BadZipFile`. -/
def parse_xbrl_for_holding_data : ZipOutcome → HoldingResult
  | .bad => emptyHoldingResult
  | .ok files =>
    let result := tradBase files
    if result.holding_ratio.isSome then result
    else inlineLoop files result (discover_xbrl_files (files.map fun m => m.path)).2 []

/-! Shared helper lemmas. -/

theorem foldl_or_some {α β : Type} (g : α → Option β) (v : β) :
    ∀ l : List α, l.foldl (fun o r => o.or (g r)) (some v) = some v := by
  intro l
  induction l with
  | nil => rfl
  | cons h t ih => simpa [Option.or_some] using ih

theorem foldl_const {α β : Type} (f : β → α → β) (st : β) :
    ∀ l : List α, (∀ e ∈ l, f st e = st) → l.foldl f st = st := by
  intro l
  induction l with
  | nil => intro _; rfl
  | cons h t ih =>
    intro hall
    have hh : f st h = st := hall h (by simp)
    simp only [List.foldl_cons, hh]
    exact ih fun e he => hall e (by simp [he])

theorem foldl_fillGaps_field {β : Type} (f : HoldingResult → Option β)
    (hf : ∀ a b, f (fillGaps a b) = (f a).or (f b)) :
    ∀ (l : List HoldingResult) (a : HoldingResult),
      f (l.foldl fillGaps a) = l.foldl (fun o r => o.or (f r)) (f a) := by
  intro l
  induction l with
  | nil => intro a; rfl
  | cons h t ih =>
    intro a
    simp only [List.foldl_cons, ih, hf]

theorem ratioElemStep_id (excl : List String) (e : XElem) (st : Option ℚ × Option ℚ)
    (h : if is_previous_ratio e.localName e.contextRef then st.2.isSome = true
         else st.1.isSome = true) :
    ratioElemStep excl st e = st := by
  unfold ratioElemStep
  split
  · rfl
  · match he : e.text with
    | none => rfl
    | some t =>
      simp only
      match hv : parseFloat (pyStrip t) with
      | none => rfl
      | some v =>
        simp only
        split at h
        all_goals rename_i hprev
        · simp [hprev, Option.or_of_isSome h]
        · simp [hprev, Option.or_of_isSome h]

theorem inlineLoop_of_no_ratio (files : List ZipMember) (base : HoldingResult) :
    ∀ (hs : List String) (acc : List HoldingResult),
      (∀ h ∈ hs, (extract_from_inline_xbrl (zfRead files h)).holding_ratio = none) →
      inlineLoop files base hs acc =
        (let merged := ((acc ++ hs.map fun h => extract_from_inline_xbrl (zfRead files h)).foldl
            fillGaps base)
         if anyField merged then merged else base) := by
  intro hs
  induction hs with
  | nil => intro acc _; simp [inlineLoop]
  | cons h t ih =>
    intro acc hall
    have hh : (extract_from_inline_xbrl (zfRead files h)).holding_ratio = none :=
      hall h (by simp)
    simp only [inlineLoop, hh, Option.isSome_none, Bool.false_eq_true, if_false]
    rw [ih (acc ++ [extract_from_inline_xbrl (zfRead files h)])
      (fun e he => hall e (by simp [he]))]
    simp [List.append_assoc]

theorem pairJoint_length : ∀ (ns : List String) (rs : List ℚ),
    (pairJoint ns rs).length = ns.length := by
  intro ns
  induction ns with
  | nil => intro rs; cases rs <;> rfl
  | cons n t ih =>
    intro rs
    cases rs with
    | nil => simp [pairJoint, ih]
    | cons r rt => simp [pairJoint, ih]

theorem pairJoint_get? : ∀ (ns : List String) (rs : List ℚ) (i : ℕ),
    (pairJoint ns rs).get? i = (ns.get? i).map fun n => JointHolder.mk n (rs.get? i) := by
  intro ns
  induction ns with
  | nil => intro rs i; cases rs <;> simp [pairJoint]
  | cons n t ih =>
    intro rs i
    cases rs with
    | nil =>
      cases i with
      | zero => simp [pairJoint]
      | succ j => simpa [pairJoint] using ih [] j
    | cons r rt =>
      cases i with
      | zero => simp [pairJoint]
      | succ j => simpa [pairJoint] using ih rt j

theorem dictGet_append (a b : List (String × String)) (k : String) :
    dictGet (a ++ b) k = (dictGet a k).or (dictGet b k) := by
  induction a with
  | nil => simp [dictGet]
  | cons kv t ih =>
    simp only [dictGet, List.cons_append, List.find?]
    by_cases hk : kv.1 = k
    · simp [hk]
    · have hd : (decide (kv.1 = k)) = false := by simp [hk]
      simp only [hd]
      simpa [dictGet] using ih

theorem ratioPatternLoop_const (tree : List XElem) :
    ∀ (ps : List String) (st : Option ℚ × Option ℚ),
      (∀ p ∈ ps, ∀ e ∈ tree.filter fun e => containsSub e.localName p,
        ratioElemStep ["Abstract", "EachLargeShareholder"] st e = st) →
      (st.1.isSome = false ∨ st.2.isSome = false) →
      ratioPatternLoop tree ps st = st := by
  intro ps
  induction ps with
  | nil => intro st _ _; rfl
  | cons p pt ih =>
    intro st hall hnb
    have hfold : (tree.filter fun e => containsSub e.localName p).foldl
        (ratioElemStep ["Abstract", "EachLargeShareholder"]) st = st :=
      foldl_const _ _ _ (fun e he => hall p (by simp) e he)
    simp only [ratioPatternLoop, hfold]
    have hcond : ¬(¬(tree.filter fun e => containsSub e.localName p).isEmpty
        ∧ st.1.isSome = true ∧ st.2.isSome = true) := by
      rcases hnb with hnb | hnb
      all_goals intro hcontra
      · exact absurd hcontra.2.1 (by simp [hnb])
      · exact absurd hcontra.2.2 (by simp [hnb])
    rw [if_neg hcond]
    exact ih st (fun q hq e he => hall q (by simp [hq]) e he) hnb

/-- The parametric single-fact element used to compare the strategies'
classification behaviour on the traditional path. -/
def tradRatioElem (ln ctx : String) : XElem :=
  { localName := ln, contextRef := ctx, text := some "0.07" }

/-- Shorthand for the parametric single-fact traditional document used
to compare the strategies' classification behaviour. -/
def tradRatioDoc (ln ctx : String) : List XElem := [tradRatioElem ln ctx]

/-- The parametric single-fact inline element. -/
def inlineRatioElem (ln ctx : String) : XElem :=
  { localName := "nonFraction", nsUri := IX_NS, nameAttr := ln,
    contextRef := ctx, itext := "0.07" }

/-- Shorthand for the parametric single-fact inline document. -/
def inlineRatioDoc (ln ctx : String) : List XElem := [inlineRatioElem ln ctx]

theorem ratioPatternLoop_cons (tree : List XElem) (p : String) (ps : List String)
    (st : Option ℚ × Option ℚ) :
    ratioPatternLoop tree (p :: ps) st =
      (let matched := tree.filter fun e => containsSub e.localName p
       let st2 := matched.foldl (ratioElemStep ["Abstract", "EachLargeShareholder"]) st
       if ¬matched.isEmpty ∧ st2.1.isSome ∧ st2.2.isSome then st2
       else ratioPatternLoop tree ps st2) := rfl

theorem trad_route (ln ctx : String)
    (h1 : containsSub ln "HoldingRatioOfShareCertificatesEtc" = true)
    (hA : containsSub ln "Abstract" = false)
    (hE : containsSub ln "EachLargeShareholder" = false) :
    (extract_from_xbrl_tree (tradRatioDoc ln ctx)).previous_holding_ratio
      = (if is_previous_ratio ln ctx then some 7 else none)
    ∧ (extract_from_xbrl_tree (tradRatioDoc ln ctx)).holding_ratio
      = (if is_previous_ratio ln ctx then none else some 7) := by
  have hHR : containsSub ln "HoldingRatio" = true :=
    containsSub_trans h1 (by decide)
  set e : XElem := tradRatioElem ln ctx with he
  -- the single candidate-element step, fully evaluated
  have htrim : pyStrip "0.07" = "0.07" := by decide
  have hpf : parseFloat (pyStrip "0.07") = some (7 / 100) := by
    rw [htrim]; simp [parseFloat, natOfDigits]; norm_num
  have hnorm : normalize_ratio (7 / 100) = 7 := by
    norm_num [normalize_ratio, roundTo4]
  have hstep : ratioElemStep ["Abstract", "EachLargeShareholder"] (none, none) e =
      (if is_previous_ratio ln ctx then ((none : Option ℚ), some (7 : ℚ))
       else (some (7 : ℚ), (none : Option ℚ))) := by
    unfold ratioElemStep
    simp only [he, tradRatioElem, List.any_cons, List.any_nil, hA, hE, Bool.or_self,
      Bool.or_false, Bool.false_eq_true, if_false]
    simp only [hpf, hnorm]
    by_cases hprev : is_previous_ratio ln ctx = true
    · simp [hprev]
    · simp only [Bool.not_eq_true] at hprev
      simp [hprev]
  -- the filled slot makes every later candidate step a no-op
  have hid : ∀ (excl : List String) st, st =
      (if is_previous_ratio ln ctx then ((none : Option ℚ), some (7 : ℚ))
       else (some (7 : ℚ), (none : Option ℚ))) →
      ratioElemStep excl st e = st := by
    intro excl st hst
    apply ratioElemStep_id
    by_cases hprev : is_previous_ratio ln ctx = true
    · simp [he, tradRatioElem, hprev, hst]
    · simp only [Bool.not_eq_true] at hprev
      simp [he, tradRatioElem, hprev, hst]
  have hfilter : ∀ p : String, (tradRatioDoc ln ctx).filter
      (fun e2 => containsSub e2.localName p) =
      (if containsSub ln p = true then [e] else []) := by
    intro p
    by_cases hp : containsSub ln p = true
    · simp [tradRatioDoc, tradRatioElem, he, List.filter, hp]
    · simp only [Bool.not_eq_true] at hp
      simp [tradRatioDoc, tradRatioElem, he, List.filter, hp]
  set target : Option ℚ × Option ℚ :=
    (if is_previous_ratio ln ctx then ((none : Option ℚ), some (7 : ℚ))
     else (some (7 : ℚ), (none : Option ℚ))) with htarget
  have hnb : target.1.isSome = false ∨ target.2.isSome = false := by
    by_cases hprev : is_previous_ratio ln ctx = true
    · left; simp [htarget, hprev]
    · simp only [Bool.not_eq_true] at hprev
      right; simp [htarget, hprev]
  -- first pattern: matches, fills the routed slot
  have hloop : ratioPatternLoop (tradRatioDoc ln ctx) ratio_patterns (none, none) = target := by
    rw [show ratio_patterns = "HoldingRatioOfShareCertificatesEtc" ::
        ["TotalShareholdingRatioOfShareCertificatesEtc", "TotalShareholdingRatio",
         "RatioOfShareholdingToTotalIssuedShares",
         "RatioOfShareCertificatesEtcAtTimeOfPreviousReport"] from rfl]
    rw [ratioPatternLoop_cons]
    simp only [hfilter, h1, if_true, List.foldl_cons, List.foldl_nil, hstep, ← htarget]
    rw [if_neg (by
      intro hcontra
      rcases hnb with hnb | hnb
      · exact absurd hcontra.2.1 (by simp [hnb])
      · exact absurd hcontra.2.2 (by simp [hnb]))]
    exact ratioPatternLoop_const _ _ _
      (by
        intro p hp e2 he2
        rw [hfilter p] at he2
        by_cases hcp : containsSub ln p = true
        · rw [if_pos hcp] at he2
          have he2e : e2 = e := by simpa using he2
          subst he2e
          exact hid _ _ rfl
        · rw [if_neg (by simp [hcp])] at he2
          simp at he2)
      hnb
  have hfb : (if target.1.isNone then fallbackRatioScan (tradRatioDoc ln ctx) target
      else target) = target := by
    by_cases hcur : target.1.isNone = true
    · rw [if_pos hcur]
      unfold fallbackRatioScan
      rw [hfilter "HoldingRatio", if_pos hHR]
      simp only [List.foldl_cons, List.foldl_nil]
      exact hid _ _ rfl
    · rw [if_neg hcur]
  constructor
  · unfold extract_from_xbrl_tree
    simp only [hloop, hfb]
    by_cases hprev : is_previous_ratio ln ctx = true
    · simp [htarget, hprev]
    · simp only [Bool.not_eq_true] at hprev
      simp [htarget, hprev]
  · unfold extract_from_xbrl_tree
    simp only [hloop, hfb]
    by_cases hprev : is_previous_ratio ln ctx = true
    · simp [htarget, hprev]
    · simp only [Bool.not_eq_true] at hprev
      simp [htarget, hprev]

theorem inline_route (ln ctx : String)
    (h1 : containsSub ln "HoldingRatioOfShareCertificatesEtc" = true)
    (hA : containsSub ln "Abstract" = false)
    (hE : containsSub ln "EachLargeShareholder" = false)
    (hJ : containsSub ln "JointHolder" = false)
    (hC : lastColon ln = ln) :
    (extract_inline_via_xml (inlineRatioDoc ln ctx)).previous_holding_ratio
      = (if is_previous_ratio ln ctx then some 7 else none)
    ∧ (extract_inline_via_xml (inlineRatioDoc ln ctx)).holding_ratio
      = (if is_previous_ratio ln ctx then none else some 7) := by
  have hNE : ln ≠ "" := ne_empty_of_containsSub h1 (by decide)
  have hHR : containsSub ln "HoldingRatio" = true :=
    containsSub_trans h1 (by decide)
  have hmr : matches_ratio_pattern ln = true := by
    simp [matches_ratio_pattern, name_contains_any, RATIO_PATTERNS, RATIO_EXCLUDE,
      hA, hE, hJ, hHR]
  have hstrip : pyStrip "0.07" = "0.07" := by decide
  have hpix : parse_ix_number "" "" "0.07" = some (7 / 100) := by
    have hc : cleanse "0.07" = "0.07" := by decide
    have hpf : parseFloat "0.07" = some (7 / 100) := by
      simp [parseFloat, natOfDigits]; norm_num
    unfold parse_ix_number
    rw [hc, if_neg (by decide), hpf]
    simp [ixSign, applyScale]
  have hnorm : applyRatioNormalize "0.07" (7 / 100) = 7 := by
    rw [applyRatioNormalize, if_pos (by decide)]
    norm_num [normalize_ratio, roundTo4]
  set e : XElem := inlineRatioElem ln ctx with he
  have hdisc : discover_ix_uri (inlineRatioDoc ln ctx) = IX_NS := rfl
  have htagNF : tagOf e = clarkTag IX_NS "nonFraction" := rfl
  have htagNN : (clarkTag IX_NS "nonFraction" = clarkTag IX_NS "nonNumeric") = False := by
    simp only [eq_iff_iff, iff_false]
    decide
  have hstep : inlineStep IX_NS {} e =
      (if is_previous_ratio ln ctx then
        { res := { previous_holding_ratio := some 7 } }
       else { res := { holding_ratio := some 7 } }) := by
    unfold inlineStep
    rw [htagNF]
    simp only [htagNN, not_true, not_false_iff, false_and, and_true, and_false, if_false]
    rw [if_neg (by simp [he, inlineRatioElem, hstrip, hNE])]
    have hattr : e.nameAttr = ln := rfl
    have hscale : e.scale = "" := rfl
    have hsign : e.sign = "" := rfl
    have hitext : e.itext = "0.07" := rfl
    have hctx : e.contextRef = ctx := rfl
    simp only [hattr, hscale, hsign, hitext, hctx, hstrip, hC, hmr, if_true, true_and,
      if_pos trivial]
    simp only [hpix, hnorm]
    by_cases hprev : is_previous_ratio ln ctx = true
    · simp [hprev]
    · simp only [Bool.not_eq_true] at hprev
      simp [hprev]
  have hfin : extract_inline_via_xml (inlineRatioDoc ln ctx) =
      (if is_previous_ratio ln ctx then
        ({ res := { previous_holding_ratio := some 7 } } : InlineState)
       else { res := { holding_ratio := some 7 } }).res := by
    unfold extract_inline_via_xml
    rw [hdisc]
    show (let st := inlineStep IX_NS {} e
          if st.jhNames.isEmpty then st.res
          else { st.res with joint_holders := some (pairJoint st.jhNames st.jhRatios) }) = _
    rw [hstep]
    by_cases hprev : is_previous_ratio ln ctx = true
    · simp [hprev]
    · simp only [Bool.not_eq_true] at hprev
      simp [hprev]
  rw [hfin]
  by_cases hprev : is_previous_ratio ln ctx = true
  · simp [hprev]
  · simp only [Bool.not_eq_true] at hprev
    simp [hprev]

theorem regex_route (ln ctx : String)
    (h1 : containsSub ln "HoldingRatioOfShareCertificatesEtc" = true)
    (hA : containsSub ln "Abstract" = false)
    (hE : containsSub ln "EachLargeShareholder" = false)
    (hJ : containsSub ln "JointHolder" = false)
    (hC : lastColon ln = ln) :
    (apply_nonfraction_regex emptyHoldingResult ln ctx "0.07").previous_holding_ratio
      = (if is_previous_ratio ln ctx then some 7 else none)
    ∧ (apply_nonfraction_regex emptyHoldingResult ln ctx "0.07").holding_ratio
      = (if is_previous_ratio ln ctx then none else some 7) := by
  have hHR : containsSub ln "HoldingRatio" = true :=
    containsSub_trans h1 (by decide)
  have hmr : matches_ratio_pattern ln = true := by
    simp [matches_ratio_pattern, name_contains_any, RATIO_PATTERNS, RATIO_EXCLUDE,
      hA, hE, hJ, hHR]
  have hst : stripTags "0.07" = "0.07" := by decide
  have hc : cleanse "0.07" = "0.07" := by decide
  have hpf : parseFloat "0.07" = some (7 / 100) := by
    simp [parseFloat, natOfDigits]; norm_num
  have hnorm : applyRatioNormalize "0.07" (7 / 100) = 7 := by
    rw [applyRatioNormalize, if_pos (by decide)]
    norm_num [normalize_ratio, roundTo4]
  unfold apply_nonfraction_regex
  simp only [hC, hst, hc]
  rw [if_neg (by decide)]
  simp only [hpf, hmr, if_true, hnorm]
  by_cases hprev : is_previous_ratio ln ctx = true
  · simp [emptyHoldingResult, hprev]
  · simp only [Bool.not_eq_true] at hprev
    simp [emptyHoldingResult, hprev]

/-- C1: the current-vs-previous classification of a ratio-bearing fact
is decided by the one shared predicate `is_previous_ratio`: a fact is
previous exactly when the local name contains `PerLastReport` or
`Previous`, or the context reference contains `Prior` or `Previous`.
All three extraction strategies (traditional XBRL, inline-XBRL XML,
inline-XBRL regex) route a decoded ratio with identical results for the
same (local-name, context-identifier) pair: on a single-fact document
with any matching ratio element name, the three strategies fill the
same (current or previous) field, as dictated by the predicate. -/
theorem classification_shared_predicate :
    (∀ ln ctx : String, is_previous_ratio ln ctx = true ↔
      ("PerLastReport".toList <:+: ln.toList ∨ "Previous".toList <:+: ln.toList
        ∨ "Prior".toList <:+: ctx.toList ∨ "Previous".toList <:+: ctx.toList))
    ∧ (∀ ln ctx : String,
      containsSub ln "HoldingRatioOfShareCertificatesEtc" = true →
      containsSub ln "Abstract" = false →
      containsSub ln "EachLargeShareholder" = false →
      containsSub ln "JointHolder" = false →
      lastColon ln = ln →
      ((extract_from_xbrl_tree (tradRatioDoc ln ctx)).previous_holding_ratio
          = (extract_inline_via_xml (inlineRatioDoc ln ctx)).previous_holding_ratio
        ∧ (extract_inline_via_xml (inlineRatioDoc ln ctx)).previous_holding_ratio
          = (apply_nonfraction_regex emptyHoldingResult ln ctx "0.07").previous_holding_ratio
        ∧ (extract_from_xbrl_tree (tradRatioDoc ln ctx)).holding_ratio
          = (extract_inline_via_xml (inlineRatioDoc ln ctx)).holding_ratio
        ∧ (extract_inline_via_xml (inlineRatioDoc ln ctx)).holding_ratio
          = (apply_nonfraction_regex emptyHoldingResult ln ctx "0.07").holding_ratio
        ∧ (extract_from_xbrl_tree (tradRatioDoc ln ctx)).previous_holding_ratio
          = (if is_previous_ratio ln ctx then some 7 else none)
        ∧ (extract_from_xbrl_tree (tradRatioDoc ln ctx)).holding_ratio
          = (if is_previous_ratio ln ctx then none else some 7))) := by
  constructor
  · intro ln ctx
    rw [is_previous_ratio]
    simp only [Bool.or_eq_true, containsSub_iff]
    tauto
  · intro ln ctx h1 hA hE hJ hC
    obtain ⟨t2, t1⟩ := trad_route ln ctx h1 hA hE
    obtain ⟨i2, i1⟩ := inline_route ln ctx h1 hA hE hJ hC
    obtain ⟨r2, r1⟩ := regex_route ln ctx h1 hA hE hJ hC
    exact ⟨t2.trans i2.symm, i2.trans r2.symm, t1.trans i1.symm, i1.trans r1.symm, t2, t1⟩

/-- Witness for C1, instantiated at a real previous-ratio element name
and a current-period context. -/
theorem classification_shared_predicate_witness :
    (extract_from_xbrl_tree
        (tradRatioDoc "HoldingRatioOfShareCertificatesEtcPerLastReport"
          "FilingDateInstant")).previous_holding_ratio
      = (extract_inline_via_xml
          (inlineRatioDoc "HoldingRatioOfShareCertificatesEtcPerLastReport"
            "FilingDateInstant")).previous_holding_ratio
    ∧ (extract_from_xbrl_tree
        (tradRatioDoc "HoldingRatioOfShareCertificatesEtcPerLastReport"
          "FilingDateInstant")).previous_holding_ratio = some 7 := by
  obtain ⟨e1, e2, e3, e4, e5, e6⟩ :=
    classification_shared_predicate.2
      "HoldingRatioOfShareCertificatesEtcPerLastReport" "FilingDateInstant"
      (by decide) (by decide) (by decide) (by decide) (by decide)
  have hp : is_previous_ratio "HoldingRatioOfShareCertificatesEtcPerLastReport"
      "FilingDateInstant" = true := by decide
  exact ⟨e1, by rw [e5, if_pos hp]⟩

/-- C2: the archive-level entry point is a total function of the
archive-open outcome — every fallible step of the Python body is caught
inside it, which the embedding renders as totality over `ZipOutcome` —
and it returns the all-empty record both when the archive cannot be
opened (zero-byte, non-ZIP or corrupt input, all raising `BadZipFile`)
and for a valid archive with no recognizable member. -/
theorem engine_never_raises (z : ZipOutcome) :
    (z = ZipOutcome.bad → parse_xbrl_for_holding_data z = emptyHoldingResult)
    ∧ (z = ZipOutcome.ok [] → parse_xbrl_for_holding_data z = emptyHoldingResult) := by
  constructor
  · rintro rfl; rfl
  · rintro rfl; decide

/-- Witness for C2 at both concrete outcomes. -/
theorem engine_never_raises_witness :
    parse_xbrl_for_holding_data ZipOutcome.bad = emptyHoldingResult
    ∧ parse_xbrl_for_holding_data (ZipOutcome.ok []) = emptyHoldingResult :=
  ⟨(engine_never_raises ZipOutcome.bad).1 rfl,
   (engine_never_raises (ZipOutcome.ok [])).2 rfl⟩

/-- C3: the shared ratio-normalization step of the inline extraction
paths never rescales a value whose source text carries a percent marker
(`%` or `％`); a bare value in the open-closed interval (0, 1] is
multiplied by 100 and rounded to four decimal places exactly once, and
any other bare value is left unchanged. -/
theorem ratio_normalization_policy (text : String) (v : ℚ) :
    ((containsSub text "%" = true ∨ containsSub text "％" = true) →
      applyRatioNormalize text v = v)
    ∧ (containsSub text "%" = false → containsSub text "％" = false →
        0 < v → v ≤ 1 → applyRatioNormalize text v = roundTo4 (v * 100))
    ∧ (containsSub text "%" = false → containsSub text "％" = false →
        ¬(0 < v ∧ v ≤ 1) → applyRatioNormalize text v = v) := by
  refine ⟨?_, ?_, ?_⟩
  · intro h
    unfold applyRatioNormalize
    rcases h with h | h <;> simp [h]
  · intro h1 h2 hpos hle
    unfold applyRatioNormalize normalize_ratio
    rw [if_pos ⟨h1, h2⟩, if_pos ⟨hpos, hle⟩]
  · intro h1 h2 hnot
    unfold applyRatioNormalize normalize_ratio
    rw [if_pos ⟨h1, h2⟩, if_neg hnot]

/-- Witness for C3: an already-percent text is untouched, a bare
decimal fraction is rescaled and rounded, a bare percentage magnitude
is untouched. -/
theorem ratio_normalization_policy_witness :
    applyRatioNormalize "7.45%" (149 / 20) = 149 / 20
    ∧ applyRatioNormalize "0.0523" (523 / 10000) = roundTo4 (523 / 10000 * 100)
    ∧ applyRatioNormalize "74.5" (149 / 2) = 149 / 2 :=
  ⟨(ratio_normalization_policy "7.45%" (149 / 20)).1 (Or.inl (by decide)),
   (ratio_normalization_policy "0.0523" (523 / 10000)).2.1 (by decide) (by decide)
     (by norm_num) (by norm_num),
   (ratio_normalization_policy "74.5" (149 / 2)).2.2 (by decide) (by decide)
     (by norm_num)⟩

/-- C8: inline numeric decoding parses the cleansed text as a float
first and applies the `scale` power-of-ten and `sign` negation after
the base parse; `scale="3"` with text `"2,500"` decodes to 2,500,000;
a cleansed value that is empty or a bare dash or em-dash decodes to no
value, not zero; and the integer conversion applied to decoded values
truncates toward zero. -/
theorem inline_number_decoding :
    parse_ix_number "3" "" "2,500" = some 2500000
    ∧ parse_ix_number "" "" "" = none
    ∧ parse_ix_number "" "" " - " = none
    ∧ parse_ix_number "" "" "―" = none
    ∧ truncQ (5 / 2) = 2 ∧ truncQ (-(5 / 2)) = -2
    ∧ (∀ scale sign text : String, ∀ v : ℚ, ∀ z : ℤ,
        ¬(cleanse text = "" ∨ cleanse text = "-" ∨ cleanse text = "―") →
        parseFloat (cleanse text) = some v →
        scale ≠ "" → parseIntStr scale = some z →
        parse_ix_number scale sign text = some (ixSign sign (v * (10 : ℚ) ^ z))) := by
  refine ⟨?_, by decide, by decide, by decide, ?_, ?_, ?_⟩
  · have hc : cleanse "2,500" = "2500" := by decide
    have hpf : parseFloat "2500" = some 2500 := by
      simp [parseFloat, natOfDigits]
    have hz : parseIntStr "3" = some 3 := by decide
    unfold parse_ix_number
    rw [hc, if_neg (by decide), hpf]
    show some (ixSign "" (applyScale "3" 2500)) = some 2500000
    unfold applyScale
    rw [if_neg (by decide), hz]
    show some (ixSign "" ((2500 : ℚ) * 10 ^ (3 : ℤ))) = some 2500000
    unfold ixSign
    rw [if_neg (by decide)]
    norm_num
  · norm_num [truncQ]
  · rw [truncQ, if_neg (by norm_num)]
    rw [Int.ceil_eq_iff]
    norm_num
  · intro scale sign text v z hne hv hs hz
    unfold parse_ix_number
    rw [if_neg hne, hv]
    show some (ixSign sign (applyScale scale v)) = some (ixSign sign (v * 10 ^ z))
    unfold applyScale
    rw [if_neg hs, hz]

/-- Witness for C8's general decoding clause: negative sign and scale 3
applied after the base parse of the cleansed text. -/
theorem inline_number_decoding_witness :
    parse_ix_number "3" "-" "2,500" = some (ixSign "-" (2500 * (10 : ℚ) ^ (3 : ℤ))) := by
  refine inline_number_decoding.2.2.2.2.2.2 "3" "-" "2,500" 2500 3 (by decide) ?_
    (by decide) (by decide)
  rw [show cleanse "2,500" = "2500" from by decide]
  simp [parseFloat, natOfDigits]

/-- C5 counterexample: a `.xbrl` member under the platform-metadata
folder `__MACOSX` whose path also contains the public-document marker
is selected by the Candidate File Selector — the audit/metadata
exclusions are not applied to the public-document subset, contradicting
the claim that such members are always excluded from the output. -/
theorem candidate_file_selector_counterexample :
    containsSub "__MACOSX/S1/PublicDoc/a.xbrl" "__MACOSX" = true
    ∧ (discover_xbrl_files ["__MACOSX/S1/PublicDoc/a.xbrl"]).1
        = ["__MACOSX/S1/PublicDoc/a.xbrl"] := by
  decide

/-- C5 (amended): for each format the selector prefers the members
whose path contains the public-document marker — that subset is chosen
purely by the marker, without the audit-document or platform-metadata
exclusions — and only when no public member of the format exists do the
remaining members of the format, minus the `AuditDoc` and `__MACOSX`
exclusions, serve as fallback. -/
theorem candidate_file_selector (files : List String) :
    ((files.any fun f => endsWithStr f ".xbrl" && containsSub f "PublicDoc") = true →
      (discover_xbrl_files files).1
        = files.filter fun f => endsWithStr f ".xbrl" && containsSub f "PublicDoc")
    ∧ ((files.any fun f => endsWithStr f ".xbrl" && containsSub f "PublicDoc") = false →
      (discover_xbrl_files files).1
        = files.filter fun f => endsWithStr f ".xbrl"
            && !containsSub f "AuditDoc" && !containsSub f "__MACOSX")
    ∧ ((files.any fun f => containsSub f "PublicDoc"
          && (endsWithStr f ".htm" || endsWithStr f ".xhtml")) = true →
      (discover_xbrl_files files).2
        = files.filter fun f => containsSub f "PublicDoc"
            && (endsWithStr f ".htm" || endsWithStr f ".xhtml"))
    ∧ ((files.any fun f => containsSub f "PublicDoc"
          && (endsWithStr f ".htm" || endsWithStr f ".xhtml")) = false →
      (discover_xbrl_files files).2
        = files.filter fun f => (endsWithStr f ".htm" || endsWithStr f ".xhtml")
            && !containsSub f "AuditDoc" && !containsSub f "__MACOSX") := by
  have key : ∀ p : String → Bool,
      (files.filter p).isEmpty = true ↔ files.any p = false := by
    intro p
    rw [List.isEmpty_iff, List.filter_eq_nil_iff]
    rw [← Bool.not_eq_true, List.any_eq_true]
    push_neg
    constructor
    · intro h x hx
      exact h x hx
    · intro h x hx
      exact h x hx
  refine ⟨?_, ?_, ?_, ?_⟩
  · intro h
    unfold discover_xbrl_files
    simp only
    rw [if_neg (by rw [key]; simp [h])]
  · intro h
    unfold discover_xbrl_files
    simp only
    rw [if_pos (by rw [key]; exact h)]
  · intro h
    unfold discover_xbrl_files
    simp only
    rw [if_neg (by rw [key]; simp [h])]
  · intro h
    unfold discover_xbrl_files
    simp only
    rw [if_pos (by rw [key]; exact h)]

/-- Witness for C5's amended selection behaviour: public members win
and exclusions are applied to the fallback subset of each format. -/
theorem candidate_file_selector_witness :
    (discover_xbrl_files
        ["S1/PublicDoc/a.xbrl", "S1/b.xbrl", "S1/AuditDoc/c.xbrl"]).1
      = ["S1/PublicDoc/a.xbrl"]
    ∧ (discover_xbrl_files ["S1/AuditDoc/c.xbrl", "S1/b.xbrl"]).1 = ["S1/b.xbrl"]
    ∧ (discover_xbrl_files ["S1/PublicDoc/d.htm", "S1/e.htm"]).2
      = ["S1/PublicDoc/d.htm"]
    ∧ (discover_xbrl_files ["__MACOSX/e.htm", "S1/f.xhtml"]).2 = ["S1/f.xhtml"] := by
  refine ⟨?_, ?_, ?_, ?_⟩
  · rw [(candidate_file_selector _).1 (by decide)]; decide
  · rw [(candidate_file_selector _).2.1 (by decide)]; decide
  · rw [(candidate_file_selector _).2.2.1 (by decide)]; decide
  · rw [(candidate_file_selector _).2.2.2 (by decide)]; decide

/-- A concrete audit-area member whose XBRL content does carry a
current holding ratio fact. -/
def auditRatioContent : FileBytes :=
  { xml := some (tradRatioDoc "HoldingRatioOfShareCertificatesEtc" "FilingDateInstant") }

/-- C6 counterexample: for an archive whose only member is an
audit-area `.xbrl` file, the engine returns the all-empty record even
though extracting that member would have produced a current ratio — no
extraction attempt is made against the audit-area file, contradicting
the claimed fallback. -/
theorem audit_fallback_counterexample :
    parse_xbrl_for_holding_data
        (ZipOutcome.ok [ZipMember.mk "S1/AuditDoc/rep.xbrl" auditRatioContent])
      = emptyHoldingResult
    ∧ (extract_from_xbrl auditRatioContent).holding_ratio = some 7 := by
  constructor
  · decide
  · show (extract_from_xbrl_tree
        (tradRatioDoc "HoldingRatioOfShareCertificatesEtc" "FilingDateInstant")).holding_ratio
      = some 7
    rw [(trad_route "HoldingRatioOfShareCertificatesEtc" "FilingDateInstant"
        (by decide) (by decide) (by decide)).2]
    rw [if_neg (by decide)]

/-- C6 (amended): an archive containing only an audit-document-area
`.xbrl` member (and no public-document member) yields no candidate of
either format — `AuditDoc` members are excluded even as fallback — so
the engine returns the all-empty record without attempting extraction,
whatever the member's content. -/
theorem audit_only_archive_yields_empty (path : String) (content : FileBytes)
    (h1 : containsSub path "PublicDoc" = false)
    (h2 : containsSub path "AuditDoc" = true)
    (h3 : endsWithStr path ".htm" = false)
    (h4 : endsWithStr path ".xhtml" = false) :
    parse_xbrl_for_holding_data (ZipOutcome.ok [ZipMember.mk path content])
      = emptyHoldingResult := by
  have hd : discover_xbrl_files [path] = ([], []) := by
    unfold discover_xbrl_files
    simp [h1, h2, h3, h4]
  unfold parse_xbrl_for_holding_data tradBase
  simp only [List.map_cons, List.map_nil, hd]
  show (if (emptyHoldingResult.holding_ratio.isSome : Prop) then emptyHoldingResult
        else inlineLoop [ZipMember.mk path content] emptyHoldingResult [] [])
      = emptyHoldingResult
  rw [if_neg (by decide)]
  unfold inlineLoop
  simp only [List.foldl_nil]
  split <;> rfl

/-- Witness for C6's amended behaviour at a concrete audit-only
archive. -/
theorem audit_only_archive_yields_empty_witness :
    parse_xbrl_for_holding_data
        (ZipOutcome.ok [ZipMember.mk "X/AuditDoc/r.xbrl" {}]) = emptyHoldingResult :=
  audit_only_archive_yields_empty "X/AuditDoc/r.xbrl" {}
    (by decide) (by decide) (by decide) (by decide)

theorem nsmapScan_no_ix : ∀ (tree : List XElem) (acc : List (String × String)),
    (∀ e ∈ tree, dictGet e.nsmap "ix" = none) → dictGet acc "ix" = none →
    dictGet (nsmapScan tree acc) "ix" = none := by
  intro tree
  induction tree with
  | nil => intro acc _ hacc; exact hacc
  | cons e t ih =>
    intro acc hall hacc
    have he : dictGet e.nsmap "ix" = none := hall e (by simp)
    have hcomb : dictGet (dictUpdate acc e.nsmap) "ix" = none := by
      unfold dictUpdate
      rw [dictGet_append, he, hacc]
      rfl
    unfold nsmapScan
    simp only [hcomb, Option.isSome_none, Bool.false_eq_true, if_false]
    exact ih _ (fun x hx => hall x (by simp [hx])) hcomb

theorem nsmapScan_finds_ix : ∀ (pre : List XElem) (e : XElem) (post : List XElem)
    (acc : List (String × String)) (u : String),
    (∀ p ∈ pre, dictGet p.nsmap "ix" = none) → dictGet acc "ix" = none →
    dictGet e.nsmap "ix" = some u →
    dictGet (nsmapScan (pre ++ e :: post) acc) "ix" = some u := by
  intro pre
  induction pre with
  | nil =>
    intro e post acc u _ hacc he
    have hcomb : dictGet (dictUpdate acc e.nsmap) "ix" = some u := by
      unfold dictUpdate
      rw [dictGet_append, he]
      rfl
    simp only [List.nil_append]
    unfold nsmapScan
    simp only [hcomb, Option.isSome_some, if_true]
  | cons p t ih =>
    intro e post acc u hall hacc he
    have hpnone : dictGet p.nsmap "ix" = none := hall p (by simp)
    have hcomb : dictGet (dictUpdate acc p.nsmap) "ix" = none := by
      unfold dictUpdate
      rw [dictGet_append, hpnone, hacc]
      rfl
    simp only [List.cons_append]
    unfold nsmapScan
    simp only [hcomb, Option.isSome_none, Bool.false_eq_true, if_false]
    exact ih e post _ u (fun x hx => hall x (by simp [hx])) hcomb he

/-- A concrete inline document whose `ix` prefix is bound to a custom
namespace URI on a descendant element, not the root. -/
def customNsDoc : List XElem :=
  [{ localName := "html" },
   { localName := "div", nsmap := [("xhtml", "http://www.w3.org/1999/xhtml"),
      ("ix", "urn:example:ix")] },
   { localName := "nonNumeric", nsUri := "urn:example:ix",
     nameAttr := "lvh:NameOfFiler", itext := "甲社" }]

/-- C7: the inline-XBRL XML extractor walks the tree accumulating
namespace declarations until the `ix` prefix is found — the URI of the
first element binding `ix` wins — and falls back to the well-known
default URI `IX_NS` when no element binds it; element matching then
uses the discovered URI, so inline facts tagged in a custom namespace
declared on a descendant element are extracted. -/
theorem inline_namespace_discovery :
    (∀ tree : List XElem, (∀ e ∈ tree, dictGet e.nsmap "ix" = none) →
      discover_ix_uri tree = IX_NS)
    ∧ (∀ (pre : List XElem) (e : XElem) (post : List XElem) (u : String),
        (∀ p ∈ pre, dictGet p.nsmap "ix" = none) →
        dictGet e.nsmap "ix" = some u →
        discover_ix_uri (pre ++ e :: post) = u)
    ∧ discover_ix_uri customNsDoc = "urn:example:ix"
    ∧ (extract_inline_via_xml customNsDoc).holder_name = some "甲社" := by
  refine ⟨?_, ?_, by decide, by decide⟩
  · intro tree hall
    unfold discover_ix_uri
    rw [nsmapScan_no_ix tree [] hall rfl]
    rfl
  · intro pre e post u hall he
    unfold discover_ix_uri
    rw [nsmapScan_finds_ix pre e post [] u hall rfl he]
    rfl

/-- Witness for C7: the default URI is used when `ix` is never bound,
and the first binding of `ix` wins when it is. -/
theorem inline_namespace_discovery_witness :
    discover_ix_uri [({ localName := "html" } : XElem)] = IX_NS
    ∧ discover_ix_uri
        [({ localName := "html" } : XElem),
         ({ localName := "div", nsmap := [("ix", "urn:u1")] } : XElem),
         ({ localName := "p", nsmap := [("ix", "urn:u2")] } : XElem)] = "urn:u1" := by
  constructor
  · exact inline_namespace_discovery.1 _ (by decide)
  · exact inline_namespace_discovery.2.1
      [{ localName := "html" }] { localName := "div", nsmap := [("ix", "urn:u1")] }
      [{ localName := "p", nsmap := [("ix", "urn:u2")] }] "urn:u1" (by decide) (by decide)

/-- The unindexed strategy-3 patterns of `_extract_joint_holders_xbrl`
can never contribute: any exact `NameOfJointHolder` / `JointHolderName`
element with non-empty text already satisfies the strategy-1 substring
scan, so when strategy 1 found nothing, strategy 3 finds nothing. -/
theorem strategy3_nil (tree : List XElem) (h : jhNamesXbrl tree = [])
    (p : String) (hp : p = "NameOfJointHolder" ∨ p = "JointHolderName") :
    tree.filterMap (jhExactName? p) = [] := by
  rw [List.filterMap_eq_nil_iff]
  intro e he
  unfold jhNamesXbrl at h
  rw [List.filterMap_eq_nil_iff] at h
  have hnone := h e he
  unfold jhExactName?
  split
  · rename_i heq
    unfold jhName? at hnone
    rw [heq] at hnone
    have hjh : (containsSub p "JointHolder" = true ∧ containsSub p "Name" = true)
        ∧ containsSub p "Abstract" = false := by
      rcases hp with hp | hp <;> subst hp <;> exact ⟨⟨by decide, by decide⟩, by decide⟩
    rw [if_pos hjh.1] at hnone
    match he2 : e.text with
    | none => rfl
    | some t =>
      rw [he2] at hnone
      simp only at hnone ⊢
      by_cases hts : pyStrip t = ""
      · rw [if_neg (by simp [hts])]
      · rw [if_pos ⟨hts, hjh.2⟩] at hnone
        exact absurd hnone (by simp)
  · rfl

/-- The traditional joint-holder document of Scenario E: two name
elements and one ratio element. -/
def jhDocXbrl : List XElem :=
  [{ localName := "NameOfJointHolder1", text := some "甲" },
   { localName := "NameOfJointHolder2", text := some "乙" },
   { localName := "JointHolder1HoldingRatio", text := some "3.5" }]

/-- First inline joint-holder name element of Scenario E. -/
def jhInlineE1 : XElem :=
  { localName := "nonNumeric", nsUri := IX_NS,
    nameAttr := "lvh:NameOfJointHolder1", itext := "甲" }

/-- Second inline joint-holder name element of Scenario E. -/
def jhInlineE2 : XElem :=
  { localName := "nonNumeric", nsUri := IX_NS,
    nameAttr := "lvh:NameOfJointHolder2", itext := "乙" }

/-- The single inline joint-holder ratio element of Scenario E. -/
def jhInlineE3 : XElem :=
  { localName := "nonFraction", nsUri := IX_NS,
    nameAttr := "lvh:JointHolder1HoldingRatio", itext := "3.5" }

/-- The inline joint-holder document of Scenario E. -/
def jhDocInline : List XElem := [jhInlineE1, jhInlineE2, jhInlineE3]

/-- C9: joint holders are assembled from the independently scanned name
and ratio element groups, paired by positional index: a document whose
scans yield n names and m parsed ratios produces exactly n joint
holders, holder i carrying the i-th ratio when i < m and no ratio
otherwise; in particular two names with one ratio — traditional or
inline — yield two holders, the first with the known ratio and the
second with none. -/
theorem joint_holder_pairing :
    (∀ tree : List XElem,
      ((extract_joint_holders_xbrl tree).isSome = true ↔ jhNamesXbrl tree ≠ [])
      ∧ ∀ holders : List JointHolder, extract_joint_holders_xbrl tree = some holders →
          holders.length = (jhNamesXbrl tree).length
          ∧ ∀ i : ℕ, holders.get? i
              = ((jhNamesXbrl tree).get? i).map
                  fun n => JointHolder.mk n ((jhRatiosXbrl tree).get? i))
    ∧ extract_joint_holders_xbrl jhDocXbrl
        = some [JointHolder.mk "甲" (some (7 / 2)), JointHolder.mk "乙" none]
    ∧ (extract_inline_via_xml jhDocInline).joint_holders
        = some [JointHolder.mk "甲" (some (7 / 2)), JointHolder.mk "乙" none] := by
  have hpf : parseFloat "3.5" = some (7 / 2) := by
    simp [parseFloat, natOfDigits]; norm_num
  have hn35 : normalize_ratio (7 / 2) = 7 / 2 := by
    norm_num [normalize_ratio]
  refine ⟨?_, ?_, ?_⟩
  · intro tree
    by_cases hn : jhNamesXbrl tree = []
    · have hpj : pairJoint (jhNamesXbrl tree) (jhRatiosXbrl tree) = [] := by
        rw [hn]; rfl
      have hs3a := strategy3_nil tree hn "NameOfJointHolder" (Or.inl rfl)
      have hs3b := strategy3_nil tree hn "JointHolderName" (Or.inr rfl)
      have hex : extract_joint_holders_xbrl tree = none := by
        unfold extract_joint_holders_xbrl
        simp [hpj, hs3a, hs3b]
      constructor
      · rw [hex]; simp [hn]
      · intro holders hcontra
        rw [hex] at hcontra
        exact absurd hcontra (by simp)
    · have hne : ¬(pairJoint (jhNamesXbrl tree) (jhRatiosXbrl tree)).isEmpty = true := by
        cases hN : jhNamesXbrl tree with
        | nil => exact absurd hN hn
        | cons a l => cases hR : jhRatiosXbrl tree <;> simp [pairJoint]
      have hex : extract_joint_holders_xbrl tree
          = some (pairJoint (jhNamesXbrl tree) (jhRatiosXbrl tree)) := by
        unfold extract_joint_holders_xbrl
        simp only [hne, Bool.false_eq_true, if_false]
      constructor
      · rw [hex]; simp [hn]
      · intro holders hsome
        rw [hex] at hsome
        have hh : holders = pairJoint (jhNamesXbrl tree) (jhRatiosXbrl tree) :=
          (Option.some_inj.mp hsome).symm
        subst hh
        exact ⟨pairJoint_length _ _, fun i => pairJoint_get? _ _ i⟩
  · -- traditional Scenario E
    have hnames : jhNamesXbrl jhDocXbrl = ["甲", "乙"] := by decide
    have hr1 : jhRatio? { localName := "NameOfJointHolder1", text := some "甲" }
        = none := by decide
    have hr2 : jhRatio? { localName := "NameOfJointHolder2", text := some "乙" }
        = none := by decide
    have hr3 : jhRatio? { localName := "JointHolder1HoldingRatio", text := some "3.5" }
        = some (7 / 2) := by
      unfold jhRatio?
      rw [if_pos ⟨by decide, by decide⟩]
      show (parseFloat (pyStrip "3.5")).map normalize_ratio = some (7 / 2)
      rw [show pyStrip "3.5" = "3.5" from by decide, hpf]
      simp [hn35]
    have hratios : jhRatiosXbrl jhDocXbrl = [7 / 2] := by
      unfold jhRatiosXbrl jhDocXbrl
      simp only [List.filterMap_cons, hr1, hr2, hr3, List.filterMap_nil]
    unfold extract_joint_holders_xbrl
    rw [hnames, hratios]
    simp [pairJoint]
  · -- inline Scenario E
    have hdisc : discover_ix_uri jhDocInline = IX_NS := by decide
    have h1 : inlineStep IX_NS {} jhInlineE1
        = InlineState.mk {} ["甲"] [] := by decide
    have h2 : inlineStep IX_NS (InlineState.mk {} ["甲"] []) jhInlineE2
        = InlineState.mk {} ["甲", "乙"] [] := by decide
    have hpix : parse_ix_number "" "" "3.5" = some (7 / 2) := by
      have hc : cleanse "3.5" = "3.5" := by decide
      unfold parse_ix_number
      rw [hc, if_neg (by decide), hpf]
      show some (ixSign "" (applyScale "" (7 / 2))) = some (7 / 2)
      unfold applyScale ixSign
      rw [if_pos rfl, if_neg (by decide)]
    have hnorm35 : applyRatioNormalize "3.5" (7 / 2) = 7 / 2 := by
      rw [applyRatioNormalize, if_pos (by decide), hn35]
    have h3 : inlineStep IX_NS (InlineState.mk {} ["甲", "乙"] []) jhInlineE3
        = InlineState.mk {} ["甲", "乙"] [7 / 2] := by
      simp only [inlineStep]
      rw [if_neg (by decide), if_neg (by decide), if_neg (by decide),
        if_neg (by decide), if_neg (by decide), if_pos (by decide)]
      rw [show pyStrip jhInlineE3.itext = "3.5" from by decide]
      rw [show jhInlineE3.scale = "" from rfl, show jhInlineE3.sign = "" from rfl]
      rw [hpix]
      show InlineState.mk {} ["甲", "乙"] ([] ++ [applyRatioNormalize "3.5" (7 / 2)]) = _
      rw [hnorm35]
      rfl
    have hfold : jhDocInline.foldl (inlineStep IX_NS) {}
        = InlineState.mk {} ["甲", "乙"] [7 / 2] := by
      simp only [jhDocInline, List.foldl_cons, List.foldl_nil, h1, h2, h3]
    simp only [extract_inline_via_xml]
    rw [hdisc, hfold]
    simp [pairJoint]

/-- Witness for C9's pairing characterization at the Scenario-E
document: the extraction is non-empty and has exactly as many holders
as scanned names. -/
theorem joint_holder_pairing_witness :
    (extract_joint_holders_xbrl jhDocXbrl).isSome = true
    ∧ [JointHolder.mk "甲" (some (7 / 2)), JointHolder.mk "乙" none].length
        = (jhNamesXbrl jhDocXbrl).length := by
  have h := joint_holder_pairing
  have hsome := h.2.1
  exact ⟨by rw [hsome]; rfl, ((h.1 jhDocXbrl).2 _ hsome).1⟩

theorem parse_merge_eq (files : List ZipMember)
    (hbase : (tradBase files).holding_ratio = none)
    (hinl : ∀ h ∈ (discover_xbrl_files (files.map fun m => m.path)).2,
      (extract_from_inline_xbrl (zfRead files h)).holding_ratio = none) :
    parse_xbrl_for_holding_data (ZipOutcome.ok files)
      = (let merged := (((discover_xbrl_files (files.map fun m => m.path)).2.map
            fun h => extract_from_inline_xbrl (zfRead files h)).foldl fillGaps
            (tradBase files))
         if anyField merged then merged else tradBase files) := by
  show (let result := tradBase files
        if result.holding_ratio.isSome then result
        else inlineLoop files result
          (discover_xbrl_files (files.map fun m => m.path)).2 []) = _
  simp only [hbase, Option.isSome_none, Bool.false_eq_true, if_false]
  rw [inlineLoop_of_no_ratio files (tradBase files) _ [] hinl]
  simp

theorem fillGaps_fields (a b : HoldingResult) :
    fillGaps a b = HoldingResult.mk
      (a.holding_ratio.or b.holding_ratio)
      (a.previous_holding_ratio.or b.previous_holding_ratio)
      (a.holder_name.or b.holder_name)
      (a.target_company_name.or b.target_company_name)
      (a.target_sec_code.or b.target_sec_code)
      (a.shares_held.or b.shares_held)
      (a.purpose_of_holding.or b.purpose_of_holding)
      (a.joint_holders.or b.joint_holders)
      (a.fund_source.or b.fund_source) := rfl

/-- Traditional-XBRL candidate carrying a holder name and no current
ratio. -/
def tradHolderOnly : FileBytes :=
  { xml := some [{ localName := "NameOfFiler", text := some "A" }] }

/-- Inline holder-name element used by the merge scenarios. -/
def inlineHolderElem : XElem :=
  { localName := "nonNumeric", nsUri := IX_NS, nameAttr := "lvh:NameOfFiler",
    itext := "B" }

/-- Inline-XBRL candidate carrying a conflicting holder name and no
current ratio. -/
def inlineHolderOnly : FileBytes := { xml := some [inlineHolderElem] }

/-- Archive holding both partial candidates. -/
def mergeDemoFiles : List ZipMember :=
  [ZipMember.mk "S1/PublicDoc/a.xbrl" tradHolderOnly,
   ZipMember.mk "S1/PublicDoc/b.htm" inlineHolderOnly]

/-- Follows the spec's words for C4 / §4.5 step (5): when no single
file succeeds, merge the partial records of the inline-XBRL candidates
only, field-by-field in candidate order (starting from the empty
record), returning the merge when any field is non-empty and the
all-empty record otherwise.  Kept for comparison against the code's
orchestrator, which is what C4 is judged against. -/
def specInlineOnlyMerge (files : List ZipMember) : HoldingResult :=
  let merged := (((discover_xbrl_files (files.map fun m => m.path)).2.map
      fun h => extract_from_inline_xbrl (zfRead files h)).foldl fillGaps
      emptyHoldingResult)
  if anyField merged then merged else emptyHoldingResult

/-- C4 counterexample: in an archive where no candidate yields a
current ratio but the traditional-XBRL candidate parses with a holder
name, the engine returns the traditional value ("A"), while the merge
of the inline-XBRL candidates alone — what the claim says is returned —
carries the inline value ("B"): the claim's merge disagrees with the
code's result at this input. -/
theorem orchestrator_merge_counterexample :
    (parse_xbrl_for_holding_data (ZipOutcome.ok mergeDemoFiles)).holding_ratio = none
    ∧ (parse_xbrl_for_holding_data (ZipOutcome.ok mergeDemoFiles)).holder_name = some "A"
    ∧ (specInlineOnlyMerge mergeDemoFiles).holder_name = some "B"
    ∧ parse_xbrl_for_holding_data (ZipOutcome.ok mergeDemoFiles)
        ≠ specInlineOnlyMerge mergeDemoFiles := by
  refine ⟨by decide, by decide, by decide, by decide⟩

/-- C4 (amended): when no candidate yields a current holding ratio, the
returned record is the field-by-field first-non-empty merge, scanned in
candidate order, of the inline-XBRL partial records onto the
traditional-XBRL partial as base (the all-empty record when there is no
traditional candidate); the merge is returned when it has any non-empty
field and the (then all-empty) base otherwise.  Field-wise, merging two
partials unions disjoint non-empty fields and keeps the earlier value
on conflict. -/
theorem orchestrator_merge_policy (files : List ZipMember)
    (hbase : (tradBase files).holding_ratio = none)
    (hinl : ∀ h ∈ (discover_xbrl_files (files.map fun m => m.path)).2,
      (extract_from_inline_xbrl (zfRead files h)).holding_ratio = none) :
    (parse_xbrl_for_holding_data (ZipOutcome.ok files)
      = (let merged := (((discover_xbrl_files (files.map fun m => m.path)).2.map
            fun h => extract_from_inline_xbrl (zfRead files h)).foldl fillGaps
            (tradBase files))
         if anyField merged then merged else tradBase files))
    ∧ (∀ a b : HoldingResult, fillGaps a b = HoldingResult.mk
        (a.holding_ratio.or b.holding_ratio)
        (a.previous_holding_ratio.or b.previous_holding_ratio)
        (a.holder_name.or b.holder_name)
        (a.target_company_name.or b.target_company_name)
        (a.target_sec_code.or b.target_sec_code)
        (a.shares_held.or b.shares_held)
        (a.purpose_of_holding.or b.purpose_of_holding)
        (a.joint_holders.or b.joint_holders)
        (a.fund_source.or b.fund_source)) :=
  ⟨parse_merge_eq files hbase hinl, fun _ _ => rfl⟩

/-- Witness for C4's amended merge at the two-candidate archive. -/
theorem orchestrator_merge_policy_witness :
    parse_xbrl_for_holding_data (ZipOutcome.ok mergeDemoFiles)
      = (let merged := (((discover_xbrl_files
            (mergeDemoFiles.map fun m => m.path)).2.map
            fun h => extract_from_inline_xbrl (zfRead mergeDemoFiles h)).foldl fillGaps
            (tradBase mergeDemoFiles))
         if anyField merged then merged else tradBase mergeDemoFiles) :=
  (orchestrator_merge_policy mergeDemoFiles (by decide) (by decide)).1

/-- C10: when the traditional-XBRL candidate parses but yields no
current holding ratio, its non-empty fields (previous ratio, holder
name, joint holders, …) are not discarded: they are the base of the
final merge and take precedence over every inline-XBRL candidate, while
a field the traditional partial left empty is filled by the first
inline candidate providing it, in candidate order. -/
theorem traditional_partial_precedence (files : List ZipMember)
    (hbase : (tradBase files).holding_ratio = none)
    (hinl : ∀ h ∈ (discover_xbrl_files (files.map fun m => m.path)).2,
      (extract_from_inline_xbrl (zfRead files h)).holding_ratio = none) :
    (∀ v : ℚ, (tradBase files).previous_holding_ratio = some v →
      (parse_xbrl_for_holding_data (ZipOutcome.ok files)).previous_holding_ratio = some v)
    ∧ (∀ s : String, (tradBase files).holder_name = some s →
      (parse_xbrl_for_holding_data (ZipOutcome.ok files)).holder_name = some s)
    ∧ (∀ js : List JointHolder, (tradBase files).joint_holders = some js →
      (parse_xbrl_for_holding_data (ZipOutcome.ok files)).joint_holders = some js)
    ∧ ((tradBase files).holder_name = none →
      (parse_xbrl_for_holding_data (ZipOutcome.ok files)).holder_name
        = ((discover_xbrl_files (files.map fun m => m.path)).2.map
            fun h => (extract_from_inline_xbrl (zfRead files h)).holder_name).foldl
            Option.or none) := by
  have hpeq := parse_merge_eq files hbase hinl
  set parts := ((discover_xbrl_files (files.map fun m => m.path)).2.map
    fun h => extract_from_inline_xbrl (zfRead files h)) with hparts
  set merged := parts.foldl fillGaps (tradBase files) with hmerged
  have hparse : parse_xbrl_for_holding_data (ZipOutcome.ok files)
      = if anyField merged then merged else tradBase files := hpeq
  have hprev : merged.previous_holding_ratio
      = parts.foldl (fun o r => o.or r.previous_holding_ratio)
          (tradBase files).previous_holding_ratio :=
    foldl_fillGaps_field (fun r => r.previous_holding_ratio) (fun _ _ => rfl) parts _
  have hhold : merged.holder_name
      = parts.foldl (fun o r => o.or r.holder_name) (tradBase files).holder_name :=
    foldl_fillGaps_field (fun r => r.holder_name) (fun _ _ => rfl) parts _
  have hjh : merged.joint_holders
      = parts.foldl (fun o r => o.or r.joint_holders) (tradBase files).joint_holders :=
    foldl_fillGaps_field (fun r => r.joint_holders) (fun _ _ => rfl) parts _
  refine ⟨?_, ?_, ?_, ?_⟩
  · intro v hv
    have hm : merged.previous_holding_ratio = some v := by
      rw [hprev, hv]
      exact foldl_or_some _ v parts
    have hany : anyField merged = true := by
      unfold anyField
      rw [hm]
      simp
    rw [hparse, if_pos hany]
    exact hm
  · intro s hs
    have hm : merged.holder_name = some s := by
      rw [hhold, hs]
      exact foldl_or_some _ s parts
    have hany : anyField merged = true := by
      unfold anyField
      rw [hm]
      simp
    rw [hparse, if_pos hany]
    exact hm
  · intro js hjs
    have hm : merged.joint_holders = some js := by
      rw [hjh, hjs]
      exact foldl_or_some _ js parts
    have hany : anyField merged = true := by
      unfold anyField
      rw [hm]
      simp
    rw [hparse, if_pos hany]
    exact hm
  · intro hnone
    have hm : merged.holder_name
        = ((discover_xbrl_files (files.map fun m => m.path)).2.map
            fun h => (extract_from_inline_xbrl (zfRead files h)).holder_name).foldl
            Option.or none := by
      rw [hhold, hnone, hparts, List.foldl_map, List.foldl_map]
    by_cases hany : anyField merged = true
    · rw [hparse, if_pos hany]
      exact hm
    · have hmn : merged.holder_name = none := by
        cases hmh : merged.holder_name with
        | none => rfl
        | some x =>
          exfalso
          apply hany
          unfold anyField
          rw [hmh]
          simp
      rw [hparse, if_neg hany, hnone, ← hm, hmn]

/-- Traditional candidate of the C10 witness archive: a previous-ratio
fact only, no current ratio and no holder name. -/
def c10TradContent : FileBytes :=
  { xml := some (tradRatioDoc "HoldingRatioOfShareCertificatesEtcPerLastReport"
      "FilingDateInstant") }

/-- The C10 witness archive: traditional partial with a previous ratio,
inline partial with a holder name. -/
def c10Files : List ZipMember :=
  [ZipMember.mk "S1/PublicDoc/a.xbrl" c10TradContent,
   ZipMember.mk "S1/PublicDoc/b.htm" inlineHolderOnly]

/-- Witness for C10: the traditional previous ratio survives the merge,
and the holder name the traditional partial left empty comes from the
inline candidate. -/
theorem traditional_partial_precedence_witness :
    (parse_xbrl_for_holding_data (ZipOutcome.ok c10Files)).previous_holding_ratio = some 7
    ∧ (parse_xbrl_for_holding_data (ZipOutcome.ok c10Files)).holder_name = some "B" := by
  have htr := trad_route "HoldingRatioOfShareCertificatesEtcPerLastReport"
    "FilingDateInstant" (by decide) (by decide) (by decide)
  have hp : is_previous_ratio "HoldingRatioOfShareCertificatesEtcPerLastReport"
      "FilingDateInstant" = true := by decide
  have hbeq : tradBase c10Files = extract_from_xbrl_tree
      (tradRatioDoc "HoldingRatioOfShareCertificatesEtcPerLastReport"
        "FilingDateInstant") := rfl
  have hbase : (tradBase c10Files).holding_ratio = none := by
    rw [hbeq, htr.2, if_pos hp]
  have hprev : (tradBase c10Files).previous_holding_ratio = some 7 := by
    rw [hbeq, htr.1, if_pos hp]
  have hhn : (tradBase c10Files).holder_name = none := by
    rw [hbeq]; decide
  have hinl : ∀ h ∈ (discover_xbrl_files (c10Files.map fun m => m.path)).2,
      (extract_from_inline_xbrl (zfRead c10Files h)).holding_ratio = none := by decide
  have h := traditional_partial_precedence c10Files hbase hinl
  refine ⟨h.1 7 hprev, ?_⟩
  rw [h.2.2.2 hhn]
  decide

end Edinet
